import Mathlib

/-!
Shallow embedding of the PhantomDB contract (contracts/PhantomDB.sol) and of
the read-path listing of the frontend (src/src/components/PurchaseRecords.tsx).

The contract stores, per merchant address, an append-only array of `Purchase`
records whose numeric fields are opaque FHE ciphertext handles.  Addresses and
ciphertext handles are modelled as `Nat`; the external FHE input verification
(`FHE.fromExternal`, an external collaborator of the repository) is modelled as
an oracle parameter `Nat → List Nat → Option Nat` (external handle, input
proof ↦ internal handle, or `none` when the proof does not verify, in which
case the call reverts).  The FHE access-control list (`FHE.allowThis` /
`FHE.allow`) is modelled as a list of (handle, principal) pairs appended in
call order.  A reverted call leaves the state unchanged, which the transaction
wrapper `step` makes explicit.
-/

namespace PhantomDB

/-- Errors of the contract: `InvalidIndex` and `InvalidItem` are the custom
errors declared in PhantomDB.sol; `InvalidProof` stands for the revert raised
inside `FHE.fromExternal` when the input proof does not verify. -/
inductive PhantomError where
  | InvalidIndex
  | InvalidItem
  | InvalidProof
deriving DecidableEq

/-- The `Purchase` struct of PhantomDB.sol.  `userId`, `quantity`, `amount`
are opaque ciphertext handles (euint32 / euint32 / euint64); `item` is the
plaintext label; `timestamp` is the store-assigned `uint64(block.timestamp)`. -/
structure Purchase where
  userId : Nat
  item : String
  quantity : Nat
  amount : Nat
  timestamp : Nat
deriving DecidableEq

/-- Contract storage: `purchases` embeds
`mapping(address merchant => Purchase[] purchases) private _purchasesByMerchant`
(a Solidity mapping reads as the empty array at any untouched key, so the map
is total); `acl` embeds the FHE access-control registry as the list of
(handle, principal) grants recorded so far. -/
structure PhantomState where
  purchases : Nat → List Purchase
  acl : List (Nat × Nat)

/-- Transaction environment: `msg.sender`, `block.timestamp`, `address(this)`. -/
structure Env where
  sender : Nat
  blockTimestamp : Nat
  thisAddr : Nat
deriving DecidableEq

/-- The `PurchaseAdded(address indexed merchant, uint256 indexed index,
string item, uint64 timestamp)` event. -/
structure PurchaseAdded where
  merchant : Nat
  index : Nat
  item : String
  timestamp : Nat
deriving DecidableEq

/-- Result of a successful `addPurchase` transaction: the new storage, the
emitted `PurchaseAdded` event, and the ABI return data of the call (the
function is declared `external` with no `returns` clause, so its return data
is empty). -/
structure AddResult where
  state : PhantomState
  ev : PurchaseAdded
  retData : List Nat

/-- Modulus of the Solidity `uint64` cast applied to `block.timestamp`. -/
def UINT64_MOD : Nat := 2 ^ 64

/-- Embedding of `addPurchase(item, userIdExt, quantityExt, amountExt,
inputProof)`.  It reverts `InvalidItem` when `bytes(item).length` is zero or
exceeds 64; then obtains the three internal handles from `FHE.fromExternal`
(reverting `InvalidProof` when the oracle rejects the proof); then pushes the
record onto the caller's array, records the six ACL grants
(`FHE.allowThis`/`FHE.allow` on each of the three handles), and emits
`PurchaseAdded(msg.sender, index, item, uint64(block.timestamp))` with
`index = _purchasesByMerchant[msg.sender].length - 1` after the push. -/
def addPurchase (env : Env) (fromExternal : Nat → List Nat → Option Nat)
    (st : PhantomState) (item : String)
    (userIdExt quantityExt amountExt : Nat) (inputProof : List Nat) :
    Except PhantomError AddResult :=
  if item.utf8ByteSize = 0 ∨ 64 < item.utf8ByteSize then
    .error .InvalidItem
  else
    match fromExternal userIdExt inputProof with
    | none => .error .InvalidProof
    | some userId =>
      match fromExternal quantityExt inputProof with
      | none => .error .InvalidProof
      | some quantity =>
        match fromExternal amountExt inputProof with
        | none => .error .InvalidProof
        | some amount =>
          let ts := env.blockTimestamp % UINT64_MOD
          let newList := st.purchases env.sender ++
            [{ userId := userId, item := item, quantity := quantity,
               amount := amount, timestamp := ts }]
          let index := newList.length - 1
          let st' : PhantomState :=
            { purchases := fun a => if a = env.sender then newList else st.purchases a
              acl := st.acl ++
                [(userId, env.thisAddr), (userId, env.sender),
                 (quantity, env.thisAddr), (quantity, env.sender),
                 (amount, env.thisAddr), (amount, env.sender)] }
          .ok { state := st'
                ev := { merchant := env.sender, index := index, item := item, timestamp := ts }
                retData := [] }

/-- Embedding of `getPurchaseCount(merchant)`: the length of the merchant's
array; a total function, it never reverts. -/
def getPurchaseCount (st : PhantomState) (merchant : Nat) : Nat :=
  (st.purchases merchant).length

/-- Embedding of `getPurchase(merchant, index)`: reverts `InvalidIndex` when
`index >= _purchasesByMerchant[merchant].length`, otherwise returns
`(p.userId, p.item, p.quantity, p.amount, p.timestamp)`.  A view function:
it takes the state and returns a value, never a new state. -/
def getPurchase (st : PhantomState) (merchant index : Nat) :
    Except PhantomError (Nat × String × Nat × Nat × Nat) :=
  if h : (st.purchases merchant).length ≤ index then
    .error .InvalidIndex
  else
    let p := (st.purchases merchant).get ⟨index, Nat.lt_of_not_le h⟩
    .ok (p.userId, p.item, p.quantity, p.amount, p.timestamp)

/-- One `addPurchase` transaction: its environment, the FHE input-verification
oracle in force, and the call arguments. -/
structure Call where
  env : Env
  oracle : Nat → List Nat → Option Nat
  item : String
  userIdExt : Nat
  quantityExt : Nat
  amountExt : Nat
  inputProof : List Nat

/-- The `addPurchase` call described by `c`, run on state `st`. -/
def runCall (st : PhantomState) (c : Call) : Except PhantomError AddResult :=
  addPurchase c.env c.oracle st c.item c.userIdExt c.quantityExt c.amountExt c.inputProof

/-- Atomic transaction semantics of the ledger runtime: a successful call
installs the new state and emits its event; a reverted call leaves the state
exactly as it was and emits nothing. -/
def step (st : PhantomState) (c : Call) : PhantomState × Option PurchaseAdded :=
  match runCall st c with
  | .ok r => (r.state, some r.ev)
  | .error _ => (st, none)

/-- Runs a sequence of `addPurchase` transactions, returning the final state
and the list of emitted events in order. -/
def runTrace (st : PhantomState) : List Call → PhantomState × List PurchaseAdded
  | [] => (st, [])
  | c :: cs =>
    ((runTrace (step st c).1 cs).1, (step st c).2.toList ++ (runTrace (step st c).1 cs).2)

/-- Storage of a freshly deployed contract: every merchant's array is empty
and no grant has been recorded. -/
def initialState : PhantomState :=
  { purchases := fun _ => [], acl := [] }

/-- Indices of the events of `evs` whose merchant is `o`, in emission order. -/
def eventsFor (o : Nat) (evs : List PurchaseAdded) : List Nat :=
  (evs.filter (fun e => e.merchant = o)).map PurchaseAdded.index

/-- Number of calls of the trace that are successful `addPurchase`
transactions sent by `o`, threading the state exactly as execution does. -/
def numSuccessfulAppends (o : Nat) : PhantomState → List Call → Nat
  | _, [] => 0
  | st, c :: cs =>
    (match runCall st c with
     | .ok _ => if c.env.sender = o then 1 else 0
     | .error _ => 0) + numSuccessfulAppends o (step st c).1 cs

/-- The frontend's cap on the number of records loaded per request
(`const MAX_TO_LOAD = 200n` in PurchaseRecords.tsx). -/
def MAX_TO_LOAD : Nat := 200

/-- One row of the frontend's Records view (type `RecordRow`): the record's
index and its five stored fields, the ciphertext handles left opaque. -/
structure RecordRow where
  index : Nat
  item : String
  timestamp : Nat
  userIdHandle : Nat
  quantityHandle : Nat
  amountHandle : Nat
deriving DecidableEq

/-- The index list built by `load` in PurchaseRecords.tsx: with
`capped = min(purchaseCount, MAX_TO_LOAD)`, the indices
`purchaseCount - 1 - i` for `i = 0, …, capped - 1`. -/
def loadIndices (purchaseCount : Nat) : List Nat :=
  (List.range (if purchaseCount > MAX_TO_LOAD then MAX_TO_LOAD else purchaseCount)).map
    (fun i => purchaseCount - 1 - i)

/-- The `load` routine of PurchaseRecords.tsx: reads `getPurchaseCount`,
builds the capped descending index list, and reads `getPurchase` at each
index, packing the returned tuple into a `RecordRow`; if any read fails the
whole load fails (`none`).  It only ever reads handles, never resolves one. -/
def loadRows (st : PhantomState) (owner : Nat) : Option (List RecordRow) :=
  (loadIndices (getPurchaseCount st owner)).mapM (fun idx =>
    match getPurchase st owner idx with
    | .ok (u, it, q, a, ts) =>
      some { index := idx, item := it, timestamp := ts,
             userIdHandle := u, quantityHandle := q, amountHandle := a }
    | .error _ => none)

/-- A concrete FHE oracle that accepts every proof, mapping the external
handle `e` to the internal handle `e + 100`. -/
def okOracle : Nat → List Nat → Option Nat := fun e _ => some (e + 100)

/-- A concrete FHE oracle that rejects every proof. -/
def noOracle : Nat → List Nat → Option Nat := fun _ _ => none

/-- A concrete environment: sender (merchant) 5, block timestamp 1000,
contract address 99. -/
def envA : Env := ⟨5, 1000, 99⟩

/-- A concrete environment for a second, distinct merchant: sender 6. -/
def envB : Env := ⟨6, 1001, 99⟩

/-- A valid purchase submission by merchant 5. -/
def callA : Call := ⟨envA, okOracle, "Coffee", 1, 2, 3, [9]⟩

/-- A valid purchase submission by merchant 6. -/
def callB : Call := ⟨envB, okOracle, "Tea", 11, 12, 13, [9]⟩

/-- A submission by merchant 5 whose item label is empty. -/
def callEmptyItem : Call := ⟨envA, okOracle, "", 1, 2, 3, [9]⟩

/-- A submission by merchant 5 with a valid item whose input proof the
oracle rejects. -/
def callBadProof : Call := ⟨envA, noOracle, "Coffee", 1, 2, 3, [9]⟩

/-- The result of running `callA` on the fresh contract, written out. -/
def resA : AddResult :=
  { state := { purchases := fun b => if b = 5 then [⟨101, "Coffee", 102, 103, 1000⟩] else []
               acl := [(101, 99), (101, 5), (102, 99), (102, 5), (103, 99), (103, 5)] }
    ev := { merchant := 5, index := 0, item := "Coffee", timestamp := 1000 }
    retData := [] }

/-- A state in which merchant 5 owns one record and nobody else owns any. -/
def oneRecord : PhantomState :=
  { purchases := fun b => if b = 5 then [⟨21, "Tea", 22, 23, 10⟩] else []
    acl := [] }

/-- A state in which merchant 5 owns three records and nobody else owns any. -/
def threeRecords : PhantomState :=
  { purchases := fun b => if b = 5 then
      [⟨21, "Tea", 22, 23, 10⟩, ⟨31, "Milk", 32, 33, 11⟩, ⟨41, "Jam", 42, 43, 12⟩] else []
    acl := [] }

end PhantomDB

namespace PhantomDB

theorem addPurchase_of_invalidItem (env : Env) (oracle : Nat → List Nat → Option Nat)
    (st : PhantomState) (item : String) (ue qe ae : Nat) (proof : List Nat)
    (hbad : item.utf8ByteSize = 0 ∨ 64 < item.utf8ByteSize) :
    addPurchase env oracle st item ue qe ae proof = .error .InvalidItem := by
  unfold addPurchase
  rw [if_pos hbad]

theorem addPurchase_error_invalidItem_iff (env : Env) (oracle : Nat → List Nat → Option Nat)
    (st : PhantomState) (item : String) (ue qe ae : Nat) (proof : List Nat) :
    addPurchase env oracle st item ue qe ae proof = .error .InvalidItem ↔
      item.utf8ByteSize = 0 ∨ 64 < item.utf8ByteSize := by
  constructor
  · intro h
    by_contra hbad
    unfold addPurchase at h
    rw [if_neg hbad] at h
    cases hu : oracle ue proof <;> rw [hu] at h
    · exact absurd (Except.error.inj h) (by simp)
    · cases hq : oracle qe proof <;> rw [hq] at h
      · exact absurd (Except.error.inj h) (by simp)
      · cases ha : oracle ae proof <;> rw [ha] at h
        · exact absurd (Except.error.inj h) (by simp)
        · simp at h
  · exact addPurchase_of_invalidItem env oracle st item ue qe ae proof

theorem addPurchase_ok_elim (env : Env) (oracle : Nat → List Nat → Option Nat)
    (st : PhantomState) (item : String) (ue qe ae : Nat) (proof : List Nat)
    (r : AddResult)
    (h : addPurchase env oracle st item ue qe ae proof = .ok r) :
    ∃ u q a,
      oracle ue proof = some u ∧ oracle qe proof = some q ∧ oracle ae proof = some a ∧
      ¬(item.utf8ByteSize = 0 ∨ 64 < item.utf8ByteSize) ∧
      r.state.purchases env.sender = st.purchases env.sender ++
        [⟨u, item, q, a, env.blockTimestamp % UINT64_MOD⟩] ∧
      (∀ o, o ≠ env.sender → r.state.purchases o = st.purchases o) ∧
      r.state.acl = st.acl ++
        [(u, env.thisAddr), (u, env.sender), (q, env.thisAddr), (q, env.sender),
         (a, env.thisAddr), (a, env.sender)] ∧
      r.ev = ⟨env.sender, (st.purchases env.sender).length, item,
              env.blockTimestamp % UINT64_MOD⟩ ∧
      r.retData = [] := by
  unfold addPurchase at h
  split at h
  · exact absurd h (by simp)
  · rename_i hbad
    cases hu : oracle ue proof <;> rw [hu] at h
    · exact absurd h (by simp)
    · cases hq : oracle qe proof <;> rw [hq] at h
      · exact absurd h (by simp)
      · cases ha : oracle ae proof <;> rw [ha] at h
        · exact absurd h (by simp)
        · rename_i u q a
          refine ⟨u, q, a, rfl, rfl, rfl, hbad, ?_⟩
          simp only at h
          cases (Except.ok.inj h).symm
          refine ⟨by simp, fun o ho => by simp [ho], by simp, ?_, rfl⟩
          simp [List.length_append]

theorem step_fst_of_error (st : PhantomState) (c : Call) (e : PhantomError)
    (h : runCall st c = .error e) : (step st c).1 = st := by
  unfold step
  rw [h]

theorem step_snd_of_error (st : PhantomState) (c : Call) (e : PhantomError)
    (h : runCall st c = .error e) : (step st c).2 = none := by
  unfold step
  rw [h]

theorem step_fst_of_ok (st : PhantomState) (c : Call) (r : AddResult)
    (h : runCall st c = .ok r) : (step st c).1 = r.state := by
  unfold step
  rw [h]

theorem step_snd_of_ok (st : PhantomState) (c : Call) (r : AddResult)
    (h : runCall st c = .ok r) : (step st c).2 = some r.ev := by
  unfold step
  rw [h]

theorem runTrace_cons_fst (st : PhantomState) (c : Call) (cs : List Call) :
    (runTrace st (c :: cs)).1 = (runTrace (step st c).1 cs).1 := by
  rw [runTrace]

theorem runTrace_cons_snd (st : PhantomState) (c : Call) (cs : List Call) :
    (runTrace st (c :: cs)).2 =
      (step st c).2.toList ++ (runTrace (step st c).1 cs).2 := by
  rw [runTrace]

theorem eventsFor_append (o : Nat) (l₁ l₂ : List PurchaseAdded) :
    eventsFor o (l₁ ++ l₂) = eventsFor o l₁ ++ eventsFor o l₂ := by
  unfold eventsFor
  rw [List.filter_append, List.map_append]

theorem runTrace_count_events (o : Nat) (tr : List Call) : ∀ st : PhantomState,
    getPurchaseCount st o ≤ getPurchaseCount (runTrace st tr).1 o ∧
    eventsFor o (runTrace st tr).2 =
      List.range' (getPurchaseCount st o)
        (getPurchaseCount (runTrace st tr).1 o - getPurchaseCount st o) := by
  induction tr with
  | nil => intro st; simp [runTrace, eventsFor]
  | cons c cs ih =>
    intro st
    rw [runTrace_cons_fst, runTrace_cons_snd]
    cases hrc : runCall st c with
    | error e =>
      rw [step_fst_of_error st c e hrc, step_snd_of_error st c e hrc]
      simpa using ih st
    | ok r =>
      rw [step_fst_of_ok st c r hrc, step_snd_of_ok st c r hrc]
      obtain ⟨u, q, a, _, _, _, _, hsend, hother, _, hev, _⟩ :=
        addPurchase_ok_elim c.env c.oracle st c.item c.userIdExt c.quantityExt
          c.amountExt c.inputProof r hrc
      obtain ⟨ihle, ihev⟩ := ih r.state
      by_cases hso : c.env.sender = o
      · have hcnt : getPurchaseCount r.state o = getPurchaseCount st o + 1 := by
          subst hso
          simp [getPurchaseCount, hsend]
        constructor
        · omega
        · rw [eventsFor_append, ihev, hcnt]
          have hevf : eventsFor o [r.ev] = [getPurchaseCount st o] := by
            simp [eventsFor, hev, hso, getPurchaseCount]
          simp only [Option.toList_some, hevf]
          rw [show getPurchaseCount (runTrace r.state cs).1 o - getPurchaseCount st o =
                (getPurchaseCount (runTrace r.state cs).1 o - (getPurchaseCount st o + 1)) + 1
              from by omega]
          rw [List.range'_succ]
          rfl
      · have hcnt : getPurchaseCount r.state o = getPurchaseCount st o := by
          simp [getPurchaseCount, hother o (fun he => hso he.symm)]
        constructor
        · omega
        · rw [eventsFor_append, ihev, hcnt]
          have hevf : eventsFor o [r.ev] = [] := by
            simp [eventsFor, hev]
            intro hc
            exact absurd hc hso
          simp [hevf]

theorem runTrace_purchases_grow (o : Nat) (tr : List Call) : ∀ st : PhantomState,
    (st.purchases o) <+: ((runTrace st tr).1.purchases o) := by
  induction tr with
  | nil => intro st; simp [runTrace]
  | cons c cs ih =>
    intro st
    rw [runTrace_cons_fst]
    refine List.IsPrefix.trans ?_ (ih (step st c).1)
    cases hrc : runCall st c with
    | error e =>
      rw [step_fst_of_error st c e hrc]
    | ok r =>
      rw [step_fst_of_ok st c r hrc]
      obtain ⟨u, q, a, _, _, _, _, hsend, hother, _, _, _⟩ :=
        addPurchase_ok_elim c.env c.oracle st c.item c.userIdExt c.quantityExt
          c.amountExt c.inputProof r hrc
      by_cases hso : o = c.env.sender
      · subst hso
        rw [hsend]
        exact List.prefix_append _ _
      · rw [hother o hso]

theorem runTrace_count_numSuccessful (o : Nat) (tr : List Call) : ∀ st : PhantomState,
    getPurchaseCount (runTrace st tr).1 o =
      getPurchaseCount st o + numSuccessfulAppends o st tr := by
  induction tr with
  | nil => intro st; simp [runTrace, numSuccessfulAppends]
  | cons c cs ih =>
    intro st
    rw [runTrace_cons_fst]
    simp only [numSuccessfulAppends]
    cases hrc : runCall st c with
    | error e =>
      rw [step_fst_of_error st c e hrc]
      dsimp only
      rw [ih st]
      omega
    | ok r =>
      rw [step_fst_of_ok st c r hrc]
      dsimp only
      rw [ih r.state]
      obtain ⟨u, q, a, _, _, _, _, hsend, hother, _, _, _⟩ :=
        addPurchase_ok_elim c.env c.oracle st c.item c.userIdExt c.quantityExt
          c.amountExt c.inputProof r hrc
      by_cases hso : c.env.sender = o
      · have hcnt : getPurchaseCount r.state o = getPurchaseCount st o + 1 := by
          subst hso
          simp [getPurchaseCount, hsend]
        rw [if_pos hso, hcnt]
        omega
      · have hcnt : getPurchaseCount r.state o = getPurchaseCount st o := by
          simp [getPurchaseCount, hother o (fun he => hso he.symm)]
        rw [if_neg hso, hcnt]
        omega

end PhantomDB

namespace PhantomDB

theorem getPurchase_error_of_le (st : PhantomState) (o j : Nat)
    (h : getPurchaseCount st o ≤ j) : getPurchase st o j = .error .InvalidIndex := by
  unfold getPurchase
  rw [dif_pos (show (st.purchases o).length ≤ j from h)]

theorem getPurchase_ok_of_lt (st : PhantomState) (o i : Nat)
    (h : i < (st.purchases o).length) :
    getPurchase st o i =
      .ok (((st.purchases o).get ⟨i, h⟩).userId,
           ((st.purchases o).get ⟨i, h⟩).item,
           ((st.purchases o).get ⟨i, h⟩).quantity,
           ((st.purchases o).get ⟨i, h⟩).amount,
           ((st.purchases o).get ⟨i, h⟩).timestamp) := by
  unfold getPurchase
  rw [dif_neg (Nat.not_le.2 h)]

theorem getPurchase_isOk_iff (st : PhantomState) (o i : Nat) :
    (∃ v, getPurchase st o i = .ok v) ↔ i < getPurchaseCount st o := by
  constructor
  · rintro ⟨v, hv⟩
    by_contra hlt
    rw [getPurchase_error_of_le st o i (Nat.le_of_not_lt hlt)] at hv
    exact absurd hv (by simp)
  · intro hlt
    exact ⟨_, getPurchase_ok_of_lt st o i hlt⟩

theorem mapM_rows (st : PhantomState) (owner : Nat) : ∀ l : List Nat,
    (∀ x ∈ l, x < getPurchaseCount st owner) →
    ∃ rows : List RecordRow,
      (l.mapM (fun idx =>
        match getPurchase st owner idx with
        | .ok (u, it, q, a, ts) =>
          some { index := idx, item := it, timestamp := ts,
                 userIdHandle := u, quantityHandle := q, amountHandle := a }
        | .error _ => none) = some rows) ∧
      rows.map RecordRow.index = l ∧
      ∀ r ∈ rows, getPurchase st owner r.index =
        .ok (r.userIdHandle, r.item, r.quantityHandle, r.amountHandle, r.timestamp) := by
  intro l
  induction l with
  | nil => intro _; exact ⟨[], rfl, rfl, by simp⟩
  | cons x xs ih =>
    intro hmem
    obtain ⟨rows, hrows, hidx, hget⟩ := ih (fun y hy => hmem y (List.mem_cons_of_mem x hy))
    have hx : x < (st.purchases owner).length := hmem x (List.mem_cons_self x xs)
    refine ⟨{ index := x,
              item := ((st.purchases owner).get ⟨x, hx⟩).item,
              timestamp := ((st.purchases owner).get ⟨x, hx⟩).timestamp,
              userIdHandle := ((st.purchases owner).get ⟨x, hx⟩).userId,
              quantityHandle := ((st.purchases owner).get ⟨x, hx⟩).quantity,
              amountHandle := ((st.purchases owner).get ⟨x, hx⟩).amount } :: rows, ?_, ?_, ?_⟩
    · rw [List.mapM_cons, getPurchase_ok_of_lt st owner x hx, hrows]
      rfl
    · simp [hidx]
    · intro r hr
      rcases List.mem_cons.1 hr with hr1 | hr2
      · subst hr1
        exact getPurchase_ok_of_lt st owner x hx
      · exact hget r hr2

theorem loadIndices_mem_lt (n : Nat) : ∀ x ∈ loadIndices n, x < n := by
  intro x hx
  unfold loadIndices at hx
  obtain ⟨i, hi, hix⟩ := List.mem_map.1 hx
  rw [List.mem_range] at hi
  split at hi <;> omega

theorem loadIndices_length (n : Nat) : (loadIndices n).length = min n MAX_TO_LOAD := by
  unfold loadIndices
  rw [List.length_map, List.length_range]
  split <;> omega

theorem loadIndices_pairwise (n : Nat) :
    (loadIndices n).Pairwise (fun i j => j < i) := by
  unfold loadIndices
  rw [List.pairwise_map]
  rw [List.pairwise_iff_get]
  intro i j hij
  rw [List.get_range, List.get_range]
  have hi := i.2
  have hj := j.2
  simp only [List.length_range] at hi hj
  have hij2 : (i : Nat) < (j : Nat) := hij
  have hle : (if n > MAX_TO_LOAD then MAX_TO_LOAD else n) ≤ n := by split <;> omega
  omega

end PhantomDB

namespace PhantomDB

/-- C1 (amended): `addPurchase` fails with `InvalidItem` if and only if the
item's byte length is 0 or greater than 64; otherwise, provided the encryption
scheme accepts the input proof for the three external handles, it assigns the
next index for the caller (the caller's record count before the call), stores
the record, and emits a `PurchaseAdded` notification carrying the caller, the
newly assigned index, the item and the store-assigned timestamp; and if the
scheme rejects the proof for any of the three handles, the call fails with
`InvalidProof` and the transaction stores nothing and emits nothing. -/
theorem addPurchase_spec (env : Env) (oracle : Nat → List Nat → Option Nat)
    (st : PhantomState) (item : String) (ue qe ae : Nat) (proof : List Nat) :
    (addPurchase env oracle st item ue qe ae proof = .error .InvalidItem ↔
      item.utf8ByteSize = 0 ∨ 64 < item.utf8ByteSize) ∧
    (∀ u q a, oracle ue proof = some u → oracle qe proof = some q →
      oracle ae proof = some a →
      ¬(item.utf8ByteSize = 0 ∨ 64 < item.utf8ByteSize) →
      ∃ st', addPurchase env oracle st item ue qe ae proof =
          .ok ⟨st', ⟨env.sender, getPurchaseCount st env.sender, item,
                     env.blockTimestamp % UINT64_MOD⟩, []⟩ ∧
        st'.purchases env.sender = st.purchases env.sender ++
          [⟨u, item, q, a, env.blockTimestamp % UINT64_MOD⟩]) ∧
    (¬(item.utf8ByteSize = 0 ∨ 64 < item.utf8ByteSize) →
      (oracle ue proof = none ∨ oracle qe proof = none ∨ oracle ae proof = none) →
      addPurchase env oracle st item ue qe ae proof = .error .InvalidProof ∧
      (step st ⟨env, oracle, item, ue, qe, ae, proof⟩).1 = st ∧
      (step st ⟨env, oracle, item, ue, qe, ae, proof⟩).2 = none) := by
  refine ⟨addPurchase_error_invalidItem_iff env oracle st item ue qe ae proof, ?_, ?_⟩
  · intro u q a hu hq ha hgood
    have hres : addPurchase env oracle st item ue qe ae proof =
        .ok { state :=
                { purchases := fun b => if b = env.sender
                    then st.purchases env.sender ++
                      [⟨u, item, q, a, env.blockTimestamp % UINT64_MOD⟩]
                    else st.purchases b
                  acl := st.acl ++
                    [(u, env.thisAddr), (u, env.sender), (q, env.thisAddr),
                     (q, env.sender), (a, env.thisAddr), (a, env.sender)] }
              ev := { merchant := env.sender
                      index := (st.purchases env.sender ++
                        [(⟨u, item, q, a, env.blockTimestamp % UINT64_MOD⟩ : Purchase)]).length - 1
                      item := item
                      timestamp := env.blockTimestamp % UINT64_MOD }
              retData := [] } := by
      unfold addPurchase
      rw [if_neg hgood, hu, hq, ha]
    refine ⟨{ purchases := fun b => if b = env.sender
                then st.purchases env.sender ++
                  [⟨u, item, q, a, env.blockTimestamp % UINT64_MOD⟩]
                else st.purchases b
              acl := st.acl ++
                [(u, env.thisAddr), (u, env.sender), (q, env.thisAddr),
                 (q, env.sender), (a, env.thisAddr), (a, env.sender)] }, ?_, ?_⟩
    · rw [hres]
      simp [getPurchaseCount, List.length_append]
    · simp
  · intro hgood hrej
    have herr : addPurchase env oracle st item ue qe ae proof = .error .InvalidProof := by
      unfold addPurchase
      rw [if_neg hgood]
      cases hu : oracle ue proof with
      | none => rfl
      | some u =>
        cases hq : oracle qe proof with
        | none => rfl
        | some q =>
          cases ha : oracle ae proof with
          | none => rfl
          | some a =>
            rcases hrej with hx | hx | hx
            · rw [hu] at hx
              exact absurd hx (by simp)
            · rw [hq] at hx
              exact absurd hx (by simp)
            · rw [ha] at hx
              exact absurd hx (by simp)
    exact ⟨herr, step_fst_of_error st ⟨env, oracle, item, ue, qe, ae, proof⟩ _ herr,
           step_snd_of_error st ⟨env, oracle, item, ue, qe, ae, proof⟩ _ herr⟩

/-- C1 counterexample to the claim as stated: a call with a valid item whose
input proof the encryption scheme rejects does not fail with `InvalidItem`
(consistent with the iff), but neither does it store a record or emit a
notification, contradicting the unconditional "otherwise it assigns the next
index, stores the record, and emits" clause. -/
theorem addPurchase_invalidProof_counterexample :
    addPurchase envA noOracle initialState "Coffee" 1 2 3 [9] = .error .InvalidProof ∧
    ¬("Coffee".utf8ByteSize = 0 ∨ 64 < "Coffee".utf8ByteSize) ∧
    (step initialState callBadProof).1.purchases envA.sender =
      initialState.purchases envA.sender ∧
    (runTrace initialState [callBadProof]).2 = [] :=
  ⟨rfl, by decide, rfl, rfl⟩

/-- C1 witness: the amended success clause evaluated on a fresh contract with
an accepting oracle and the item "Coffee", and the amended rejection clause
evaluated with the rejecting oracle: `InvalidProof`, nothing stored, nothing
emitted. -/
theorem addPurchase_spec_witness :
    (∃ st', addPurchase envA okOracle initialState "Coffee" 1 2 3 [9] =
        .ok ⟨st', ⟨envA.sender, getPurchaseCount initialState envA.sender, "Coffee",
                   envA.blockTimestamp % UINT64_MOD⟩, []⟩ ∧
      st'.purchases envA.sender = initialState.purchases envA.sender ++
        [⟨101, "Coffee", 102, 103, envA.blockTimestamp % UINT64_MOD⟩]) ∧
    addPurchase envA noOracle initialState "Coffee" 1 2 3 [9] = .error .InvalidProof ∧
    (step initialState ⟨envA, noOracle, "Coffee", 1, 2, 3, [9]⟩).1 = initialState ∧
    (step initialState ⟨envA, noOracle, "Coffee", 1, 2, 3, [9]⟩).2 = none := by
  have hok := (addPurchase_spec envA okOracle initialState "Coffee" 1 2 3 [9]).2.1
    101 102 103 rfl rfl rfl (by decide)
  have hrej := (addPurchase_spec envA noOracle initialState "Coffee" 1 2 3 [9]).2.2
    (by decide) (Or.inl rfl)
  exact ⟨hok, hrej.1, hrej.2.1, hrej.2.2⟩

/-- C2: records are append-only over an arbitrary trace of transactions (each
owner's stored list is only ever extended), and, starting from a fresh
contract, the indices emitted for an owner over any trace, regardless of
interleaving with other owners' appends, are exactly `0, 1, …, count-1` in
order — dense, no gaps, no repeats. -/
theorem appendOnly_denseIndices (st : PhantomState) (tr : List Call) (o : Nat) :
    ((st.purchases o) <+: ((runTrace st tr).1.purchases o)) ∧
    eventsFor o (runTrace initialState tr).2 =
      List.range (getPurchaseCount (runTrace initialState tr).1 o) := by
  refine ⟨runTrace_purchases_grow o tr st, ?_⟩
  obtain ⟨hle, hev⟩ := runTrace_count_events o tr initialState
  rw [hev]
  have h0 : getPurchaseCount initialState o = 0 := rfl
  rw [h0, List.range_eq_range']
  simp

/-- C2 witness: a four-call trace interleaving two merchants (and one rejected
call) yields the dense index sequence for merchant 5. -/
theorem appendOnly_denseIndices_witness :
    ((oneRecord.purchases 5) <+:
      ((runTrace oneRecord [callA, callB, callA, callEmptyItem]).1.purchases 5)) ∧
    eventsFor 5 (runTrace initialState [callA, callB, callA, callEmptyItem]).2 =
      List.range
        (getPurchaseCount (runTrace initialState [callA, callB, callA, callEmptyItem]).1 5) :=
  appendOnly_denseIndices oneRecord [callA, callB, callA, callEmptyItem] 5

/-- C3: every successful `addPurchase` appends a record whose three ciphertext
handles are each granted to exactly two principals — the contract itself
(`FHE.allowThis`) and the caller (`FHE.allow(·, msg.sender)`) — and the write
path grants nothing to any other principal. -/
theorem addPurchase_grants_two_principals (env : Env)
    (oracle : Nat → List Nat → Option Nat) (st : PhantomState) (item : String)
    (ue qe ae : Nat) (proof : List Nat) (r : AddResult)
    (h : addPurchase env oracle st item ue qe ae proof = .ok r) :
    ∃ u q a,
      r.state.purchases env.sender = st.purchases env.sender ++
        [⟨u, item, q, a, env.blockTimestamp % UINT64_MOD⟩] ∧
      r.state.acl = st.acl ++
        [(u, env.thisAddr), (u, env.sender), (q, env.thisAddr), (q, env.sender),
         (a, env.thisAddr), (a, env.sender)] ∧
      (∀ hd pr, (hd, pr) ∈ r.state.acl →
        (hd, pr) ∈ st.acl ∨ pr = env.thisAddr ∨ pr = env.sender) := by
  obtain ⟨u, q, a, hu, hq, ha, hgood, hsend, hother, hacl, hev, hrd⟩ :=
    addPurchase_ok_elim env oracle st item ue qe ae proof r h
  refine ⟨u, q, a, hsend, hacl, ?_⟩
  intro hd pr hmem
  rw [hacl] at hmem
  rcases List.mem_append.1 hmem with h1 | h2
  · exact Or.inl h1
  · right
    simp only [List.mem_cons, Prod.mk.injEq, List.not_mem_nil, or_false] at h2
    rcases h2 with ⟨_, hp⟩ | ⟨_, hp⟩ | ⟨_, hp⟩ | ⟨_, hp⟩ | ⟨_, hp⟩ | ⟨_, hp⟩
    · exact Or.inl hp
    · exact Or.inr hp
    · exact Or.inl hp
    · exact Or.inr hp
    · exact Or.inl hp
    · exact Or.inr hp

/-- C3 witness: the grants recorded by `callA` on a fresh contract. -/
theorem addPurchase_grants_two_principals_witness :
    ∃ u q a,
      resA.state.purchases envA.sender = initialState.purchases envA.sender ++
        [⟨u, "Coffee", q, a, envA.blockTimestamp % UINT64_MOD⟩] ∧
      resA.state.acl = initialState.acl ++
        [(u, envA.thisAddr), (u, envA.sender), (q, envA.thisAddr), (q, envA.sender),
         (a, envA.thisAddr), (a, envA.sender)] ∧
      (∀ hd pr, (hd, pr) ∈ resA.state.acl →
        (hd, pr) ∈ initialState.acl ∨ pr = envA.thisAddr ∨ pr = envA.sender) :=
  addPurchase_grants_two_principals envA okOracle initialState "Coffee" 1 2 3 [9] resA rfl

/-- C4: with an invalid item (empty or over 64 bytes) `addPurchase` fails with
`InvalidItem` under every encryption-scheme oracle — the failure is decided
before, and independently of, any `FHE.fromExternal` call — and every failure
of the write path leaves the whole state (record store and grant registry)
unchanged. -/
theorem addPurchase_failFast_preservesState (env : Env)
    (oracle : Nat → List Nat → Option Nat) (st : PhantomState) (item : String)
    (ue qe ae : Nat) (proof : List Nat) :
    (item.utf8ByteSize = 0 ∨ 64 < item.utf8ByteSize →
      ∀ anyOracle, addPurchase env anyOracle st item ue qe ae proof =
        .error .InvalidItem) ∧
    (∀ e, addPurchase env oracle st item ue qe ae proof = .error e →
      (step st ⟨env, oracle, item, ue, qe, ae, proof⟩).1 = st) := by
  constructor
  · intro hbad anyOracle
    exact addPurchase_of_invalidItem env anyOracle st item ue qe ae proof hbad
  · intro e he
    exact step_fst_of_error st ⟨env, oracle, item, ue, qe, ae, proof⟩ e he

/-- C4 witness: the empty item fails with `InvalidItem` even under the
rejecting oracle, and the failed transaction leaves the fresh state intact. -/
theorem addPurchase_failFast_preservesState_witness :
    addPurchase envA noOracle initialState "" 1 2 3 [9] = .error .InvalidItem ∧
    (step initialState ⟨envA, okOracle, "", 1, 2, 3, [9]⟩).1 = initialState := by
  have h := addPurchase_failFast_preservesState envA okOracle initialState "" 1 2 3 [9]
  exact ⟨h.1 (by decide) noOracle, h.2 .InvalidItem (h.1 (by decide) okOracle)⟩

/-- C5: `getPurchase` fails with `InvalidIndex` exactly when
`index ≥ count(owner)`, and otherwise returns the stored record's fields in
the order (userIdHandle, item, quantityHandle, amountHandle, timestamp); being
a view, it takes the state as input and returns only a value. -/
theorem getPurchase_invalidIndex_iff_fields (st : PhantomState) (merchant index : Nat) :
    (getPurchase st merchant index = .error .InvalidIndex ↔
      getPurchaseCount st merchant ≤ index) ∧
    ∀ h : index < (st.purchases merchant).length,
      getPurchase st merchant index =
        .ok (((st.purchases merchant).get ⟨index, h⟩).userId,
             ((st.purchases merchant).get ⟨index, h⟩).item,
             ((st.purchases merchant).get ⟨index, h⟩).quantity,
             ((st.purchases merchant).get ⟨index, h⟩).amount,
             ((st.purchases merchant).get ⟨index, h⟩).timestamp) := by
  constructor
  · constructor
    · intro he
      by_contra hlt
      rw [getPurchase_ok_of_lt st merchant index (Nat.lt_of_not_le hlt)] at he
      exact absurd he (by simp)
    · exact getPurchase_error_of_le st merchant index
  · exact getPurchase_ok_of_lt st merchant index

/-- C5 witness: on a one-record state, index 1 is rejected exactly because
`count ≤ 1`, and index 0 returns the stored fields in order. -/
theorem getPurchase_invalidIndex_iff_fields_witness :
    (getPurchase oneRecord 5 1 = .error .InvalidIndex ↔
      getPurchaseCount oneRecord 5 ≤ 1) ∧
    getPurchase oneRecord 5 0 = .ok (21, "Tea", 22, 23, 10) := by
  refine ⟨(getPurchase_invalidIndex_iff_fields oneRecord 5 1).1, ?_⟩
  exact (getPurchase_invalidIndex_iff_fields oneRecord 5 0).2 (by decide)

end PhantomDB

namespace PhantomDB

/-- C6: `getPurchaseCount` is a total function (it never fails); it returns 0
for every owner on a fresh contract; after any trace from the fresh contract
it equals the number of successful `addPurchase` calls sent by the owner; and
in every state an index is accepted by `getPurchase` exactly when it is below
the count, so a positive count is one plus the highest accepted index. -/
theorem getPurchaseCount_spec (tr : List Call) (o : Nat) (st : PhantomState) (i : Nat) :
    getPurchaseCount initialState o = 0 ∧
    getPurchaseCount (runTrace initialState tr).1 o =
      numSuccessfulAppends o initialState tr ∧
    ((∃ v, getPurchase st o i = .ok v) ↔ i < getPurchaseCount st o) ∧
    (0 < getPurchaseCount st o →
      (∃ v, getPurchase st o (getPurchaseCount st o - 1) = .ok v) ∧
      getPurchaseCount st o = (getPurchaseCount st o - 1) + 1 ∧
      ∀ j, getPurchaseCount st o - 1 < j →
        getPurchase st o j = .error .InvalidIndex) := by
  refine ⟨rfl, ?_, getPurchase_isOk_iff st o i, ?_⟩
  · rw [runTrace_count_numSuccessful o tr initialState]
    have h0 : getPurchaseCount initialState o = 0 := rfl
    rw [h0, Nat.zero_add]
  · intro hpos
    refine ⟨(getPurchase_isOk_iff st o _).2 (by omega), by omega, ?_⟩
    intro j hj
    exact getPurchase_error_of_le st o j (by omega)

/-- C6 witness: counts on the fresh contract, after a concrete trace, and on a
concrete one-record state. -/
theorem getPurchaseCount_spec_witness :
    getPurchaseCount initialState 5 = 0 ∧
    getPurchaseCount (runTrace initialState [callA, callB, callA, callEmptyItem]).1 5 =
      numSuccessfulAppends 5 initialState [callA, callB, callA, callEmptyItem] ∧
    ((∃ v, getPurchase oneRecord 5 0 = .ok v) ↔ 0 < getPurchaseCount oneRecord 5) ∧
    (∃ v, getPurchase oneRecord 5 (getPurchaseCount oneRecord 5 - 1) = .ok v) ∧
    getPurchase oneRecord 5 1 = .error .InvalidIndex := by
  have h := getPurchaseCount_spec [callA, callB, callA, callEmptyItem] 5 oneRecord 0
  have h4 := h.2.2.2 (by decide)
  exact ⟨h.1, h.2.1, h.2.2.1, h4.1, h4.2.2 1 (by decide)⟩

/-- C7 (amended): the read-path listing of the frontend takes no `maxCount`
argument; for every owner it loads exactly `min(count(owner), 200)` records —
the `MAX_TO_LOAD = 200` most recent when more exist — ordered by strictly
decreasing index starting at `count-1`, each row holding the stored record's
fields with the ciphertext handles opaque and unresolved; with 3 records
stored it returns all three, most recent first. -/
theorem loadRows_spec (st : PhantomState) (owner : Nat) :
    ∃ rows, loadRows st owner = some rows ∧
      rows.length = min (getPurchaseCount st owner) MAX_TO_LOAD ∧
      rows.length ≤ 200 ∧
      rows.map RecordRow.index = loadIndices (getPurchaseCount st owner) ∧
      (rows.map RecordRow.index).Pairwise (fun i j => j < i) ∧
      ∀ r ∈ rows, getPurchase st owner r.index =
        .ok (r.userIdHandle, r.item, r.quantityHandle, r.amountHandle, r.timestamp) := by
  obtain ⟨rows, hrows, hidx, hget⟩ :=
    mapM_rows st owner (loadIndices (getPurchaseCount st owner))
      (loadIndices_mem_lt (getPurchaseCount st owner))
  refine ⟨rows, hrows, ?_, ?_, hidx, ?_, hget⟩
  · rw [← List.length_map rows RecordRow.index, hidx]
    exact loadIndices_length (getPurchaseCount st owner)
  · rw [← List.length_map rows RecordRow.index, hidx,
      loadIndices_length (getPurchaseCount st owner)]
    have : MAX_TO_LOAD = 200 := rfl
    omega
  · rw [hidx]
    exact loadIndices_pairwise (getPurchaseCount st owner)

/-- C7 counterexample to the claim as stated: the listing has no `maxCount`
parameter to set to 2 — on a state where the owner has exactly 3 records the
read-path load returns all 3 rows, never "exactly the two highest-index
records". -/
theorem loadRows_no_maxCount_counterexample :
    getPurchaseCount threeRecords 5 = 3 ∧
    (∃ rows, loadRows threeRecords 5 = some rows ∧ rows.length = 3 ∧
      rows.length ≠ 2 ∧ rows.map RecordRow.index = [2, 1, 0]) :=
  ⟨rfl, ⟨[⟨2, "Jam", 12, 41, 42, 43⟩, ⟨1, "Milk", 11, 31, 32, 33⟩,
          ⟨0, "Tea", 10, 21, 22, 23⟩], rfl, rfl, by decide, rfl⟩⟩

/-- C7 witness: the amended listing behaviour evaluated on the three-record
state: all three rows, most recent first. -/
theorem loadRows_spec_witness :
    ∃ rows, loadRows threeRecords 5 = some rows ∧ rows.length = 3 ∧
      rows.map RecordRow.index = [2, 1, 0] := by
  obtain ⟨rows, h1, h2, _, h4, _, _⟩ := loadRows_spec threeRecords 5
  refine ⟨rows, h1, ?_, ?_⟩
  · rw [h2]
    decide
  · rw [h4]
    decide

/-- C8: a successful `addPurchase` changes only the caller's record sequence:
for every other owner the count and every stored record read via
`getPurchase` are unchanged. -/
theorem addPurchase_frame_other_owners (env : Env)
    (oracle : Nat → List Nat → Option Nat) (st : PhantomState) (item : String)
    (ue qe ae : Nat) (proof : List Nat) (r : AddResult)
    (h : addPurchase env oracle st item ue qe ae proof = .ok r)
    (o : Nat) (ho : o ≠ env.sender) :
    getPurchaseCount r.state o = getPurchaseCount st o ∧
    ∀ i, getPurchase r.state o i = getPurchase st o i := by
  obtain ⟨u, q, a, hu, hq, ha, hgood, hsend, hother, hacl, hev, hrd⟩ :=
    addPurchase_ok_elim env oracle st item ue qe ae proof r h
  have hp := hother o ho
  constructor
  · unfold getPurchaseCount
    rw [hp]
  · intro i
    rcases Nat.lt_or_ge i ((st.purchases o).length) with hlt | hge
    · have hlt2 : i < (r.state.purchases o).length := by rw [hp]; exact hlt
      rw [getPurchase_ok_of_lt st o i hlt, getPurchase_ok_of_lt r.state o i hlt2]
      have hget : (r.state.purchases o).get ⟨i, hlt2⟩ = (st.purchases o).get ⟨i, hlt⟩ := by
        revert hlt2
        rw [hp]
        intro hlt2
        rfl
      rw [hget]
    · have hge2 : getPurchaseCount r.state o ≤ i := by
        unfold getPurchaseCount
        rw [hp]
        exact hge
      rw [getPurchase_error_of_le st o i hge, getPurchase_error_of_le r.state o i hge2]

/-- C8 witness: merchant 5's successful append leaves merchant 6's count and
reads untouched. -/
theorem addPurchase_frame_other_owners_witness :
    getPurchaseCount resA.state 6 = getPurchaseCount initialState 6 ∧
    getPurchase resA.state 6 0 = getPurchase initialState 6 0 := by
  have h := addPurchase_frame_other_owners envA okOracle initialState
    "Coffee" 1 2 3 [9] resA rfl 6 (by decide)
  exact ⟨h.1, h.2 0⟩

/-- C9 (amended): a successful `addPurchase` assigns the record the new index
equal to the caller's count before the call and emits it in the
`PurchaseAdded` event; the function itself is declared without a `returns`
clause, so its return data is empty — the index is not returned. -/
theorem addPurchase_emits_index_no_return (env : Env)
    (oracle : Nat → List Nat → Option Nat) (st : PhantomState) (item : String)
    (ue qe ae : Nat) (proof : List Nat) (r : AddResult)
    (h : addPurchase env oracle st item ue qe ae proof = .ok r) :
    r.ev.index = getPurchaseCount st env.sender ∧ r.retData = [] := by
  obtain ⟨u, q, a, hu, hq, ha, hgood, hsend, hother, hacl, hev, hrd⟩ :=
    addPurchase_ok_elim env oracle st item ue qe ae proof r h
  rw [hev]
  exact ⟨rfl, hrd⟩

/-- C9 counterexample to the claim as stated: a successful call that assigns
index 1 has empty return data — `addPurchase` does not return the new index
(it only emits it). -/
theorem addPurchase_no_return_counterexample :
    ∃ r, addPurchase envA okOracle oneRecord "Coffee" 1 2 3 [9] = .ok r ∧
      r.ev.index = 1 ∧ r.retData = [] ∧ r.retData ≠ [r.ev.index] :=
  ⟨⟨⟨fun b => if b = 5 then oneRecord.purchases 5 ++ [(⟨101, "Coffee", 102, 103, 1000⟩ : Purchase)]
       else oneRecord.purchases b,
     [(101, 99), (101, 5), (102, 99), (102, 5), (103, 99), (103, 5)]⟩,
    ⟨5, 1, "Coffee", 1000⟩, []⟩, rfl, rfl, rfl, by decide⟩

/-- C9 witness: the amended statement evaluated on `callA` run on the fresh
contract. -/
theorem addPurchase_emits_index_no_return_witness :
    resA.ev.index = getPurchaseCount initialState envA.sender ∧ resA.retData = [] :=
  addPurchase_emits_index_no_return envA okOracle initialState "Coffee" 1 2 3 [9] resA rfl

/-- C10: the owner of every appended record is the transaction caller —
`addPurchase` takes no owner parameter, every successful call appends to the
caller's own sequence only, emits the caller as the event's merchant, and
grants owner capabilities only to the contract and the caller, in every
reachable (indeed, every) state. -/
theorem addPurchase_owner_is_sender (env : Env)
    (oracle : Nat → List Nat → Option Nat) (st : PhantomState) (item : String)
    (ue qe ae : Nat) (proof : List Nat) (r : AddResult)
    (h : addPurchase env oracle st item ue qe ae proof = .ok r) :
    r.ev.merchant = env.sender ∧
    (∃ p, r.state.purchases env.sender = st.purchases env.sender ++ [p]) ∧
    (∀ o, o ≠ env.sender → r.state.purchases o = st.purchases o) ∧
    (∀ hd pr, (hd, pr) ∈ r.state.acl → pr ≠ env.thisAddr → pr ≠ env.sender →
      (hd, pr) ∈ st.acl) := by
  obtain ⟨u, q, a, hu, hq, ha, hgood, hsend, hother, hacl, hev, hrd⟩ :=
    addPurchase_ok_elim env oracle st item ue qe ae proof r h
  refine ⟨by rw [hev], ⟨_, hsend⟩, hother, ?_⟩
  intro hd pr hmem hnt hns
  rw [hacl] at hmem
  rcases List.mem_append.1 hmem with h1 | h2
  · exact h1
  · exfalso
    simp only [List.mem_cons, Prod.mk.injEq, List.not_mem_nil, or_false] at h2
    rcases h2 with ⟨_, hp⟩ | ⟨_, hp⟩ | ⟨_, hp⟩ | ⟨_, hp⟩ | ⟨_, hp⟩ | ⟨_, hp⟩
    · exact hnt hp
    · exact hns hp
    · exact hnt hp
    · exact hns hp
    · exact hnt hp
    · exact hns hp

/-- C10 witness: `callA` appends to merchant 5's own sequence, names merchant
5 in the event, and leaves merchant 6's sequence untouched. -/
theorem addPurchase_owner_is_sender_witness :
    resA.ev.merchant = envA.sender ∧
    (∃ p, resA.state.purchases envA.sender = initialState.purchases envA.sender ++ [p]) ∧
    resA.state.purchases 6 = initialState.purchases 6 := by
  have h := addPurchase_owner_is_sender envA okOracle initialState "Coffee" 1 2 3 [9] resA rfl
  exact ⟨h.1, h.2.1, h.2.2.1 6 (by decide)⟩

end PhantomDB
